import Mathlib

/-!
Verification of the audio pass-through core of `rust-dsp-experiments`
(`src/main.rs`): a latency-primed SPSC sample queue shared between a
capture callback and a playback callback.

Samples are `f32` amplitudes in the source; the core never performs
arithmetic on them (pure pass-through, and the only literal written is
`0.0`), so they are modelled exactly as rationals.  The latency
computation `(settings.latency / 1_000.0) * sample_rate as f32` is
likewise modelled over the rationals: the `as usize` cast of a
non-negative float truncates toward zero, i.e. takes the floor.
-/

namespace RustDsp

/-- A single audio sample (`f32` in the source, modelled exactly). -/
abbrev Sample := ℚ

/-- Modelled from the spec: the SPSC ring buffer (`HeapRb<f32>` from the
`ringbuf` crate, whose source is outside this repository) as described in
spec section 4.1 — a fixed-capacity FIFO queue of samples.  `buffer` lists
the enqueued samples oldest first; `capacity` is fixed at construction. -/
structure SampleQueue where
  capacity : ℕ
  buffer : List Sample
  deriving DecidableEq, Repr

/-- Modelled from the spec: `try_push(sample)` appends `sample` and
advances the write position unless the buffer is at capacity, in which
case it fails without modifying state.  Returns `true` on success
(source: `Result<(), f32>` being `Ok`). -/
def try_push (q : SampleQueue) (s : Sample) : Bool × SampleQueue :=
  if q.buffer.length < q.capacity then
    (true, ⟨q.capacity, q.buffer ++ [s]⟩)
  else
    (false, q)

/-- Modelled from the spec: `try_pop()` removes and returns the sample at
the read position, failing (`none`) when no samples are available. -/
def try_pop (q : SampleQueue) : Option Sample × SampleQueue :=
  match q.buffer with
  | [] => (none, q)
  | s :: rest => (some s, ⟨q.capacity, rest⟩)

/-- Free space currently available in the queue. -/
def freeSpace (q : SampleQueue) : ℕ := q.capacity - q.buffer.length

/-- Rust's `as usize` cast applied to a (finite) float value: truncation
toward zero, clamped below at 0.  For the non-negative values produced at
`src/main.rs:107` this is the floor. -/
def rat_as_usize (x : ℚ) : ℕ := (⌊x⌋).toNat

/-- `src/main.rs:107`: `let latency_frames = (settings.latency / 1_000.0)
* config.sample_rate.0 as f32;` with the f32 arithmetic modelled exactly
over ℚ. -/
def latency_frames (latency : ℚ) (sample_rate : ℕ) : ℚ :=
  (latency / 1000) * sample_rate

/-- `src/main.rs:108`: `let latency_samples = latency_frames as usize *
config.channels as usize;`. -/
def latency_samples (latency : ℚ) (sample_rate channels : ℕ) : ℕ :=
  rat_as_usize (latency_frames latency sample_rate) * channels

/-- The sample count as the spec words it: `round(latency_ms / 1000 *
sample_rate) * channels` (round half up; the half-integer case below
distinguishes every rounding convention from the code's truncation). -/
def latency_samples_spec (latency : ℚ) (sample_rate channels : ℕ) : ℕ :=
  (round ((latency / 1000) * sample_rate)).toNat * channels

/-- `src/main.rs:111`: `let ring = HeapRb::<f32>::new(latency_samples * 2);`
— a freshly constructed, empty queue of capacity `latency_samples * 2`. -/
def mkRing (latency : ℚ) (sample_rate channels : ℕ) : SampleQueue :=
  ⟨latency_samples latency sample_rate channels * 2, []⟩

/-- `src/main.rs:115-119`: the priming loop `for _ in 0..n {
producer.try_push(0.0).unwrap() }`.  Returns the final queue together
with the list of push results, so that the `unwrap` (which panics on a
failed push) can be reasoned about. -/
def primeLoop : ℕ → SampleQueue → SampleQueue × List Bool
  | 0, q => (q, [])
  | n + 1, q =>
    let r := try_push q 0
    let rest := primeLoop n r.2
    (rest.1, r.1 :: rest.2)

/-- The queue as both callbacks first see it: constructed at
`src/main.rs:111` and primed at `src/main.rs:115-119`. -/
def primedRing (latency : ℚ) (sample_rate channels : ℕ) : SampleQueue :=
  (primeLoop (latency_samples latency sample_rate channels)
    (mkRing latency sample_rate channels)).1

/-- `src/main.rs:121-131` (`input_data_fn`, the CaptureFeeder): for each
sample of the batch, in order, `try_push`; a failed push is simply
dropped.  Returns the final queue and the per-sample push results; the
source's `output_fell_behind` flag is `true` exactly when some result is
`false`. -/
def input_data_fn : List Sample → SampleQueue → SampleQueue × List Bool
  | [], q => (q, [])
  | s :: rest, q =>
    let r := try_push q s
    let k := input_data_fn rest r.2
    (k.1, r.1 :: k.2)

/-- `src/main.rs:128-130` and `src/main.rs:144-146`: the number of
diagnostic lines printed for a batch — one `eprintln!` if the
fell-behind flag was set by any failed operation, none otherwise. -/
def batchSignals (oks : List Bool) : ℕ :=
  if oks.any (fun b => !b) then 1 else 0

/-- `src/main.rs:133-147` (`output_data_fn`, the PlaybackDrainer): for
each of the `n` output slots, in order, `try_pop`; on success the popped
sample is written to the slot, on failure `0.0` is written.  Returns the
written slots, the final queue, and the per-slot pop results; the
source's `input_fell_behind` flag is `true` exactly when some result is
`false`. -/
def output_data_fn : ℕ → SampleQueue → List Sample × SampleQueue × List Bool
  | 0, q => ([], q, [])
  | n + 1, q =>
    match try_pop q with
    | (some s, q') =>
      let k := output_data_fn n q'
      (s :: k.1, k.2.1, true :: k.2.2)
    | (none, q') =>
      let k := output_data_fn n q'
      (0 :: k.1, k.2.1, false :: k.2.2)

/-- An abstract push-or-pop operation on the shared queue, for stating
the occupancy invariant over arbitrary interleavings. -/
inductive QOp where
  | push (s : Sample)
  | pop
  deriving DecidableEq, Repr

/-- Run a sequence of operations, counting successful pushes and
successful pops. -/
def runOps : List QOp → SampleQueue → SampleQueue × ℕ × ℕ
  | [], q => (q, 0, 0)
  | QOp.push s :: ops, q =>
    let r := try_push q s
    let k := runOps ops r.2
    (k.1, (if r.1 then 1 else 0) + k.2.1, k.2.2)
  | QOp.pop :: ops, q =>
    let r := try_pop q
    let k := runOps ops r.2
    (k.1, k.2.1, (if r.1.isSome then 1 else 0) + k.2.2)

/-! ### General lemmas about the queue operations -/

/-- Priming a queue with enough free space appends exactly `n` zeros and
every push succeeds. -/
theorem primeLoop_spec (n : ℕ) : ∀ q : SampleQueue, q.buffer.length + n ≤ q.capacity →
    primeLoop n q =
      (⟨q.capacity, q.buffer ++ List.replicate n 0⟩, List.replicate n true) := by
  induction n with
  | zero => intro q h; simp [primeLoop]
  | succ n ih =>
    intro q h
    have hlt : q.buffer.length < q.capacity := by omega
    simp only [primeLoop, try_push, if_pos hlt]
    rw [ih ⟨q.capacity, q.buffer ++ [0]⟩ (by simp; omega)]
    simp [List.replicate_succ]

/-- Closed form of the capture callback: the first `freeSpace q` samples
of the batch are appended, the rest are dropped, and the push results are
that many `true`s followed by `false`s. -/
theorem input_data_fn_spec (data : List Sample) :
    ∀ q : SampleQueue, q.buffer.length ≤ q.capacity →
    input_data_fn data q =
      (⟨q.capacity, q.buffer ++ data.take (freeSpace q)⟩,
       List.replicate (min data.length (freeSpace q)) true ++
         List.replicate (data.length - freeSpace q) false) := by
  induction data with
  | nil => intro q h; simp [input_data_fn]
  | cons s rest ih =>
    intro q h
    by_cases hlt : q.buffer.length < q.capacity
    · obtain ⟨m, hm⟩ : ∃ m, freeSpace q = m + 1 :=
        ⟨freeSpace q - 1, by unfold freeSpace; omega⟩
      simp only [input_data_fn, try_push, if_pos hlt]
      rw [ih ⟨q.capacity, q.buffer ++ [s]⟩ (by simp; omega)]
      have hm' : freeSpace ⟨q.capacity, q.buffer ++ [s]⟩ = m := by
        simp [freeSpace] at hm ⊢; omega
      simp [hm, hm', List.replicate_succ, Nat.succ_min_succ, Nat.succ_sub_succ]
    · have hfull : freeSpace q = 0 := by unfold freeSpace; omega
      simp only [input_data_fn, try_push, if_neg hlt]
      rw [ih q h]
      simp [hfull, List.replicate_succ]

/-- Closed form of the playback callback: the oldest `min n occupancy`
samples are written out in order, the remaining slots get `0`, and the
pop results are that many `true`s followed by `false`s. -/
theorem output_data_fn_spec (n : ℕ) : ∀ q : SampleQueue,
    output_data_fn n q =
      (q.buffer.take n ++ List.replicate (n - q.buffer.length) 0,
       ⟨q.capacity, q.buffer.drop n⟩,
       List.replicate (min n q.buffer.length) true ++
         List.replicate (n - q.buffer.length) false) := by
  induction n with
  | zero => intro q; simp [output_data_fn]
  | succ n ih =>
    rintro ⟨cap, buf⟩
    cases buf with
    | nil =>
      simp only [output_data_fn, try_pop]
      rw [ih ⟨cap, []⟩]
      simp [List.replicate_succ]
    | cons b bs =>
      simp only [output_data_fn, try_pop]
      rw [ih ⟨cap, bs⟩]
      simp [List.replicate_succ, Nat.succ_min_succ, Nat.succ_sub_succ]

/-- Occupancy bookkeeping: running any operation sequence preserves the
capacity, and occupancy plus successful pops equals initial occupancy
plus successful pushes, with occupancy never exceeding capacity. -/
theorem runOps_inv (ops : List QOp) : ∀ q : SampleQueue, q.buffer.length ≤ q.capacity →
    (runOps ops q).1.capacity = q.capacity ∧
    (runOps ops q).1.buffer.length + (runOps ops q).2.2 =
      q.buffer.length + (runOps ops q).2.1 ∧
    (runOps ops q).1.buffer.length ≤ q.capacity := by
  induction ops with
  | nil => intro q h; simpa [runOps] using h
  | cons op ops ih =>
    intro q h
    cases op with
    | push s =>
      by_cases hlt : q.buffer.length < q.capacity
      · have hrec := ih ⟨q.capacity, q.buffer ++ [s]⟩ (by simp; omega)
        simp only [runOps, try_push, if_pos hlt]
        simp at hrec ⊢
        omega
      · have hrec := ih q h
        simp only [runOps, try_push, if_neg hlt]
        simp
        omega
    | pop =>
      obtain ⟨cap, buf⟩ := q
      cases buf with
      | nil =>
        have hrec := ih ⟨cap, []⟩ h
        simp only [runOps, try_pop]
        simp at hrec ⊢
        omega
      | cons b bs =>
        have hrec := ih ⟨cap, bs⟩ (by simp at h ⊢; omega)
        simp only [runOps, try_pop]
        simp at hrec ⊢
        omega

/-- A batch emits one diagnostic line exactly when some operation in it
failed. -/
theorem batchSignals_one_iff (oks : List Bool) :
    batchSignals oks = 1 ↔ false ∈ oks := by
  have hany : (oks.any fun b => !b) = true ↔ false ∈ oks := by simp
  by_cases h : false ∈ oks
  · simp [batchSignals, hany.2 h, h]
  · have hfalse : (oks.any fun b => !b) = false :=
      Bool.eq_false_iff.2 fun hc => h (hany.1 hc)
    simp [batchSignals, hfalse, h]

/-- A batch emits no diagnostic line exactly when every operation in it
succeeded. -/
theorem batchSignals_zero_iff (oks : List Bool) :
    batchSignals oks = 0 ↔ ¬ false ∈ oks := by
  have hany : (oks.any fun b => !b) = true ↔ false ∈ oks := by simp
  by_cases h : false ∈ oks
  · simp [batchSignals, hany.2 h, h]
  · have hfalse : (oks.any fun b => !b) = false :=
      Bool.eq_false_iff.2 fun hc => h (hany.1 hc)
    simp [batchSignals, hfalse, h]

/-! ### Claim theorems -/

/-- C1, counterexample: at latency 500 ms, sample rate 3 Hz, 1 channel,
the claimed formula `round(L/1000 * R) * C` gives 2, but the primed queue
holds a single zero sample and its capacity is 2 (= 2 × 1), not 4: the
`as usize` cast at `src/main.rs:108` truncates 1.5 instead of rounding. -/
theorem C1_counterexample :
    latency_samples_spec 500 3 1 = 2 ∧
    (primedRing 500 3 1).buffer = [0] ∧
    (primedRing 500 3 1).capacity = 2 := by
  have h1 : latency_samples 500 3 1 = 1 := by
    norm_num [latency_samples, rat_as_usize, latency_frames]
  have hp : primedRing 500 3 1 = ⟨2, [0]⟩ := by
    simp only [primedRing, mkRing, h1]
    rw [primeLoop_spec 1 ⟨1 * 2, []⟩ (by simp)]
    simp
  refine ⟨?_, ?_, ?_⟩
  · norm_num [latency_samples_spec, round_eq]
    rfl
  · rw [hp]
  · rw [hp]

/-- C1, amended: the sample count computed at startup equals
`trunc(L/1000 * R) * C` (the floor of the latency frame count, not its
rounding), the queue is constructed with capacity exactly twice that
count, and after priming it contains exactly that many zero samples. -/
theorem C1_priming (L : ℚ) (R C : ℕ) :
    latency_samples L R C = (⌊(L / 1000) * R⌋).toNat * C ∧
    (primedRing L R C).capacity = latency_samples L R C * 2 ∧
    (primedRing L R C).buffer = List.replicate (latency_samples L R C) 0 := by
  have hp : primedRing L R C =
      ⟨latency_samples L R C * 2, List.replicate (latency_samples L R C) 0⟩ := by
    simp only [primedRing, mkRing]
    rw [primeLoop_spec _ _ (by simp; omega)]
    simp
  exact ⟨rfl, by rw [hp], by rw [hp]⟩

/-- C2: priming performs exactly `latency_samples` pushes of the zero
sample on the freshly constructed queue of capacity `2 * latency_samples`,
and every one of them succeeds, so the `unwrap` at `src/main.rs:118`
never observes the error branch. -/
theorem C2_priming_pushes (L : ℚ) (R C : ℕ) :
    (primeLoop (latency_samples L R C) (mkRing L R C)).2.length =
      latency_samples L R C ∧
    ∀ b ∈ (primeLoop (latency_samples L R C) (mkRing L R C)).2, b = true := by
  rw [mkRing, primeLoop_spec _ _ (by simp; omega)]
  constructor
  · simp
  · intro b hb
    simpa using (List.eq_of_mem_replicate (by simpa using hb))

/-- C3, counterexample: at the non-negative configured latency 0 ms
(sample rate 48000, 2 channels) `latency_samples = 0` and the queue
capacity is `0 * 2 = 0`, which is not strictly greater than 0. -/
theorem C3_counterexample :
    ¬ latency_samples 0 48000 2 < (mkRing 0 48000 2).capacity := by
  have h0 : latency_samples 0 48000 2 = 0 := by
    norm_num [latency_samples, rat_as_usize, latency_frames]
  simp [mkRing, h0]

/-- C3, amended: whenever the configured latency yields a positive sample
count, the capacity fixed at construction (`2 * latency_samples`) is
strictly greater than `latency_samples`. -/
theorem C3_capacity (L : ℚ) (R C : ℕ) (h : 0 < latency_samples L R C) :
    latency_samples L R C < (mkRing L R C).capacity := by
  simp only [mkRing]
  omega

theorem C3_capacity_witness :
    0 < latency_samples 1000 1 1 ∧
    latency_samples 1000 1 1 < (mkRing 1000 1 1).capacity := by
  have h : 0 < latency_samples 1000 1 1 := by
    norm_num [latency_samples, rat_as_usize, latency_frames]
  exact ⟨h, C3_capacity 1000 1 1 h⟩

/-- C4: the capture callback attempts one `try_push` per sample in batch
order: the first `freeSpace q` samples are appended and the rest are
dropped without being retried or buffered; some push fails exactly when
the batch is longer than the free space; and exactly one overrun
diagnostic is emitted for the batch precisely when some push failed,
none otherwise. -/
theorem C4_capture (data : List Sample) (q : SampleQueue)
    (hq : q.buffer.length ≤ q.capacity) :
    (input_data_fn data q).2.length = data.length ∧
    (input_data_fn data q).1 =
      ⟨q.capacity, q.buffer ++ data.take (freeSpace q)⟩ ∧
    (false ∈ (input_data_fn data q).2 ↔ freeSpace q < data.length) ∧
    (batchSignals (input_data_fn data q).2 = 1 ↔
      false ∈ (input_data_fn data q).2) ∧
    (batchSignals (input_data_fn data q).2 = 0 ↔
      ¬ false ∈ (input_data_fn data q).2) := by
  rw [input_data_fn_spec data q hq]
  refine ⟨?_, rfl, ?_, batchSignals_one_iff _, batchSignals_zero_iff _⟩
  · simp
    omega
  · simp [List.mem_replicate]
    omega

theorem C4_capture_witness :
    (SampleQueue.mk 2 []).buffer.length ≤ (SampleQueue.mk 2 []).capacity ∧
    (input_data_fn [1, 2, 3] ⟨2, []⟩).2.length = 3 ∧
    (input_data_fn [1, 2, 3] ⟨2, []⟩).1 = ⟨2, [1, 2]⟩ ∧
    batchSignals (input_data_fn [1, 2, 3] ⟨2, []⟩).2 = 1 := by
  have hq : (SampleQueue.mk 2 []).buffer.length ≤ (SampleQueue.mk 2 []).capacity := by
    simp
  have h := C4_capture [1, 2, 3] ⟨2, []⟩ hq
  refine ⟨hq, by simpa using h.1, ?_, ?_⟩
  · have := h.2.1
    simpa [freeSpace] using this
  · exact (h.2.2.2.1).2 ((h.2.2.1).2 (by simp [freeSpace]))

/-- C5: the playback callback attempts one `try_pop` per output slot in
order: the oldest queued samples are written into the leading slots and
every remaining slot receives exactly 0; some pop fails exactly when the
batch is longer than the occupancy; and exactly one underrun diagnostic
is emitted for the batch precisely when some pop failed, none
otherwise. -/
theorem C5_playback (n : ℕ) (q : SampleQueue) :
    (output_data_fn n q).1.length = n ∧
    (output_data_fn n q).1 =
      q.buffer.take n ++ List.replicate (n - q.buffer.length) 0 ∧
    (output_data_fn n q).2.1 = ⟨q.capacity, q.buffer.drop n⟩ ∧
    (false ∈ (output_data_fn n q).2.2 ↔ q.buffer.length < n) ∧
    (batchSignals (output_data_fn n q).2.2 = 1 ↔
      false ∈ (output_data_fn n q).2.2) ∧
    (batchSignals (output_data_fn n q).2.2 = 0 ↔
      ¬ false ∈ (output_data_fn n q).2.2) := by
  rw [output_data_fn_spec]
  refine ⟨?_, rfl, rfl, ?_, batchSignals_one_iff _, batchSignals_zero_iff _⟩
  · simp
    omega
  · simp [List.mem_replicate]
    omega

/-- C6: `try_push` on a queue whose occupancy equals its capacity fails
and leaves the queue unchanged; pushing `capacity + 1` samples into an
empty queue with no intervening pops makes exactly the last push fail,
and the first `capacity` samples remain retrievable in order. -/
theorem C6_overrun (cap : ℕ) (samples : List Sample)
    (hlen : samples.length = cap + 1) :
    (∀ (q : SampleQueue) (s : Sample), q.buffer.length = q.capacity →
      try_push q s = (false, q)) ∧
    (input_data_fn samples ⟨cap, []⟩).2 =
      List.replicate cap true ++ [false] ∧
    (input_data_fn samples ⟨cap, []⟩).1.buffer = samples.take cap ∧
    (output_data_fn cap (input_data_fn samples ⟨cap, []⟩).1).1 =
      samples.take cap := by
  have hfull : ∀ (q : SampleQueue) (s : Sample), q.buffer.length = q.capacity →
      try_push q s = (false, q) := by
    intro q s h
    simp [try_push, h]
  have hfs : freeSpace ⟨cap, []⟩ = cap := by simp [freeSpace]
  have hmin : min samples.length cap = cap := by omega
  have hsub : samples.length - cap = 1 := by omega
  rw [input_data_fn_spec samples ⟨cap, []⟩ (by simp)]
  refine ⟨hfull, ?_, by simp [hfs], ?_⟩
  · simp [hfs, hmin, hsub]
  · rw [output_data_fn_spec]
    have hmin2 : cap ⊓ samples.length = cap := by omega
    simp [hfs, List.take_take, hmin2]

theorem C6_overrun_witness :
    ([5, 6, 7] : List Sample).length = 2 + 1 ∧
    (input_data_fn [5, 6, 7] ⟨2, []⟩).2 = [true, true, false] ∧
    (input_data_fn [5, 6, 7] ⟨2, []⟩).1.buffer = [5, 6] ∧
    (output_data_fn 2 (input_data_fn [5, 6, 7] ⟨2, []⟩).1).1 = [5, 6] := by
  have hlen : ([5, 6, 7] : List Sample).length = 2 + 1 := by simp
  have h := C6_overrun 2 [5, 6, 7] hlen
  refine ⟨hlen, ?_, ?_, ?_⟩
  · simpa using h.2.1
  · simpa using h.2.2.1
  · simpa using h.2.2.2

/-- C7: pushing a sequence of `N` samples into the empty queue, with `N`
not exceeding the free space and no intervening pops, makes every push
succeed, and popping `N` times afterwards yields the same `N` samples in
the same order, unmodified. -/
theorem C7_fifo (cap : ℕ) (samples : List Sample)
    (hlen : samples.length ≤ cap) :
    (∀ b ∈ (input_data_fn samples ⟨cap, []⟩).2, b = true) ∧
    (output_data_fn samples.length (input_data_fn samples ⟨cap, []⟩).1).1 =
      samples := by
  have hfs : freeSpace ⟨cap, []⟩ = cap := by simp [freeSpace]
  rw [input_data_fn_spec samples ⟨cap, []⟩ (by simp)]
  constructor
  · intro b hb
    rw [hfs, Nat.sub_eq_zero_of_le hlen] at hb
    simp at hb
    exact hb.2
  · rw [output_data_fn_spec]
    have htk : samples.take (freeSpace ⟨cap, []⟩) = samples := by
      rw [hfs]
      exact List.take_of_length_le hlen
    simp [htk]

theorem C7_fifo_witness :
    ([1, 2, 3] : List Sample).length ≤ 4 ∧
    (∀ b ∈ (input_data_fn [1, 2, 3] ⟨4, []⟩).2, b = true) ∧
    (output_data_fn ([1, 2, 3] : List Sample).length
      (input_data_fn [1, 2, 3] ⟨4, []⟩).1).1 = [1, 2, 3] := by
  have hlen : ([1, 2, 3] : List Sample).length ≤ 4 := by simp
  have h := C7_fifo 4 [1, 2, 3] hlen
  exact ⟨hlen, h.1, h.2⟩

/-- C8: after any sequence of push and pop operations on the freshly
constructed queue, successful pops never exceed successful pushes, the
occupancy equals successful pushes minus successful pops (in particular
it never drops below zero), and it never exceeds the capacity, which is
unchanged. -/
theorem C8_occupancy (cap : ℕ) (ops : List QOp) :
    (runOps ops ⟨cap, []⟩).1.capacity = cap ∧
    (runOps ops ⟨cap, []⟩).2.2 ≤ (runOps ops ⟨cap, []⟩).2.1 ∧
    (runOps ops ⟨cap, []⟩).1.buffer.length =
      (runOps ops ⟨cap, []⟩).2.1 - (runOps ops ⟨cap, []⟩).2.2 ∧
    (runOps ops ⟨cap, []⟩).1.buffer.length ≤ cap := by
  have h := runOps_inv ops ⟨cap, []⟩ (by simp)
  simp at h
  omega

/-- C9: when the configuration yields `latency_samples = 0`, the queue is
constructed with capacity 0 and primed with nothing; every `try_push`
fails (so every non-empty capture batch emits the overrun diagnostic and
leaves the queue unchanged) and every `try_pop` fails (so every output
slot is filled with 0 and every non-empty playback batch emits the
underrun diagnostic). -/
theorem C9_zero_latency (L : ℚ) (R C : ℕ)
    (h : latency_samples L R C = 0) :
    primedRing L R C = ⟨0, []⟩ ∧
    (∀ s : Sample, try_push (primedRing L R C) s = (false, primedRing L R C)) ∧
    try_pop (primedRing L R C) = (none, primedRing L R C) ∧
    (∀ data : List Sample, data ≠ [] →
      batchSignals (input_data_fn data (primedRing L R C)).2 = 1 ∧
      (input_data_fn data (primedRing L R C)).1 = primedRing L R C) ∧
    (∀ n : ℕ, 0 < n →
      (output_data_fn n (primedRing L R C)).1 = List.replicate n 0 ∧
      batchSignals (output_data_fn n (primedRing L R C)).2.2 = 1) := by
  have hp : primedRing L R C = ⟨0, []⟩ := by
    simp [primedRing, mkRing, h, primeLoop]
  rw [hp]
  have hfs : freeSpace ⟨0, []⟩ = 0 := by simp [freeSpace]
  refine ⟨rfl, ?_, ?_, ?_, ?_⟩
  · intro s
    simp [try_push]
  · simp [try_pop]
  · intro data hd
    rw [input_data_fn_spec data ⟨0, []⟩ (by simp)]
    constructor
    · rw [batchSignals_one_iff]
      simp [hfs, List.mem_replicate]
      exact hd
    · simp [hfs]
  · intro n hn
    rw [output_data_fn_spec]
    constructor
    · simp
    · rw [batchSignals_one_iff]
      simp [List.mem_replicate]
      omega

theorem C9_zero_latency_witness :
    latency_samples 0 48000 2 = 0 ∧
    primedRing 0 48000 2 = ⟨0, []⟩ ∧
    try_push (primedRing 0 48000 2) 7 = (false, primedRing 0 48000 2) ∧
    try_pop (primedRing 0 48000 2) = (none, primedRing 0 48000 2) ∧
    batchSignals (input_data_fn [1, 2] (primedRing 0 48000 2)).2 = 1 ∧
    (output_data_fn 3 (primedRing 0 48000 2)).1 = List.replicate 3 0 := by
  have h0 : latency_samples 0 48000 2 = 0 := by
    norm_num [latency_samples, rat_as_usize, latency_frames]
  have h := C9_zero_latency 0 48000 2 h0
  exact ⟨h0, h.1, h.2.1 7, h.2.2.1,
    (h.2.2.2.1 [1, 2] (by simp)).1, (h.2.2.2.2 3 (by simp)).1⟩

/-- C10: a zero-length batch performs no pushes and no pops, emits no
overrun and no underrun diagnostic, and leaves the queue unchanged on
both the capture and the playback side. -/
theorem C10_empty_batch (q : SampleQueue) :
    input_data_fn [] q = (q, []) ∧
    batchSignals (input_data_fn [] q).2 = 0 ∧
    output_data_fn 0 q = ([], q, []) ∧
    batchSignals (output_data_fn 0 q).2.2 = 0 :=
  ⟨rfl, rfl, rfl, rfl⟩

end RustDsp
